import Mathlib

/-
Verification of the smart-cafeteria demand-forecasting service.

Shallow embedding of the Python sources:
  backend/ml_service/models.py         (metrics, trainers, model selection)
  backend/ml_service/app.py            (forecast generation and aggregation)
  backend/ml_service/data_pipeline.py  (feature engineering)

Conventions:
  * Python floats are modelled as rationals.
  * Calendar dates are modelled as integer day numbers.
  * Fallible/NaN-producing computations return Option values; the pandas
    dropna step keeps exactly the rows whose modelled columns are all some.
  * Trained library estimators (XGBoost regressor, SARIMAX, Keras LSTM) are
    opaque fitted objects; they are modelled as function parameters, so every
    theorem quantifies over all possible fitted models.
-/

namespace Cafeteria

/-! ## Python rounding

Python round(x, d) rounds half to even (bankers rounding).  pyRoundInt is
round-half-to-even to an integer; pyRoundTo d is Python round(x, d). -/

/-- Python round(x) for a rational x: round half to even. -/
def pyRoundInt (x : ℚ) : ℤ :=
  if x - ⌊x⌋ = 1/2 then (if 2 ∣ ⌊x⌋ then ⌊x⌋ else ⌊x⌋ + 1) else round x

/-- Python round(x, d). -/
def pyRoundTo (d : ℕ) (x : ℚ) : ℚ := (pyRoundInt (x * 10 ^ d) : ℚ) / 10 ^ d

/-- Python round(x, 1), used pervasively in app.py. -/
def round1 (x : ℚ) : ℚ := pyRoundTo 1 x

theorem pyRoundInt_intCast (z : ℤ) : pyRoundInt (z : ℚ) = z := by
  unfold pyRoundInt
  rw [Int.floor_intCast]
  have h : (z : ℚ) - z = 0 := by ring
  rw [h]
  have h2 : (0 : ℚ) ≠ 1/2 := by norm_num
  simp [h2, round_intCast]

theorem pyRoundInt_zero : pyRoundInt 0 = 0 := by
  have := pyRoundInt_intCast 0
  simpa using this

theorem round1_zero : round1 0 = 0 := by
  unfold round1 pyRoundTo
  rw [zero_mul, pyRoundInt_zero]
  norm_num

/-- A rational that is an integer multiple of 1/10 (every emitted
predicted_demand has this shape, being a round(-, 1) result). -/
def isTenth (q : ℚ) : Prop := ∃ z : ℤ, q = (z : ℚ) / 10

theorem round1_isTenth (x : ℚ) : isTenth (round1 x) := by
  exact ⟨pyRoundInt (x * 10 ^ 1), by unfold round1 pyRoundTo; norm_num⟩

theorem round1_of_isTenth {q : ℚ} (h : isTenth q) : round1 q = q := by
  obtain ⟨z, rfl⟩ := h
  unfold round1 pyRoundTo
  have h10 : ((z : ℚ) / 10) * 10 ^ 1 = (z : ℚ) := by
    field_simp
  rw [h10, pyRoundInt_intCast]
  norm_num

theorem pyRoundInt_nonneg {x : ℚ} (h : 0 ≤ x) : 0 ≤ pyRoundInt x := by
  unfold pyRoundInt
  split
  · split
    · exact Int.floor_nonneg.2 h
    · have := Int.floor_nonneg.2 h
      omega
  · rw [round_eq]
    refine Int.le_floor.2 ?_
    push_cast
    linarith

theorem round1_nonneg {x : ℚ} (h : 0 ≤ x) : 0 ≤ round1 x := by
  unfold round1 pyRoundTo
  have h1 : 0 ≤ x * 10 ^ 1 := by positivity
  have h2 := pyRoundInt_nonneg h1
  positivity

theorem isTenth_add {a b : ℚ} (ha : isTenth a) (hb : isTenth b) :
    isTenth (a + b) := by
  obtain ⟨x, rfl⟩ := ha
  obtain ⟨y, rfl⟩ := hb
  exact ⟨x + y, by push_cast; ring⟩

theorem isTenth_zero : isTenth 0 := ⟨0, by norm_num⟩

theorem isTenth_sum {l : List ℚ} (h : ∀ q ∈ l, isTenth q) : isTenth l.sum := by
  induction l with
  | nil => simpa using isTenth_zero
  | cons a t ih =>
      rw [List.sum_cons]
      exact isTenth_add (h a (by simp)) (ih fun q hq => h q (by simp [hq]))

/-! ## models.py : compute_metrics (lines 31-45)

The source computes
  rmse = sqrt(mean_squared_error(y_true, y_pred))
  mae  = mean_absolute_error(y_true, y_pred)
  mape = mean(|(t - p)/t| over positions with t > 0) * 100, or 0.0 if none
and rounds rmse/mae to 4 decimals and mape to 2.

Square roots are irrational in general, so the embedding stores the mean
squared error rmseSq (rmse = sqrt rmseSq, and rmse = 0 iff rmseSq = 0);
theorems about rmse itself go through Real.sqrt of this field.  The numpy
boolean mask y_true > 0 is modelled by filtering the zipped pairs. -/

structure Metrics where
  rmseSq : ℚ
  mae : ℚ
  mape : ℚ
deriving DecidableEq, Repr

/-- compute_metrics from models.py. -/
def computeMetrics (yTrue yPred : List ℚ) : Metrics :=
  let pairs := yTrue.zip yPred
  let n : ℚ := yTrue.length
  let mse := ((pairs.map fun p => (p.1 - p.2) ^ 2).sum) / n
  let mae := ((pairs.map fun p => |p.1 - p.2|).sum) / n
  let masked := pairs.filter fun p => 0 < p.1
  let mape :=
    if masked.length ≠ 0 then
      (((masked.map fun p => |(p.1 - p.2) / p.1|).sum) / masked.length) * 100
    else 0
  { rmseSq := mse, mae := pyRoundTo 4 mae, mape := pyRoundTo 2 mape }

/-! ## models.py : select_best_model (lines 322-349) -/

structure TrainResult where
  name : String
  rmse : ℚ
  mae : ℚ
  mape : ℚ
deriving DecidableEq, Repr

/-- Left-to-right minimum by rmse; replaces the accumulator only on a
strictly smaller key, exactly like Python min(..., key=...), so the
first-seen candidate wins ties. -/
def minByRmse (b : TrainResult) : List TrainResult → TrainResult
  | [] => b
  | r :: rs => minByRmse (if r.rmse < b.rmse then r else b) rs

/-- select_best_model from models.py: filter out None results, raise if
nothing remains, otherwise take the min-rmse candidate. -/
def selectBestModel (results : List (Option TrainResult)) :
    Except String TrainResult :=
  match results.filterMap id with
  | [] => Except.error ("No models were successfully trained!")
  | v :: vs => Except.ok (minByRmse v vs)

/-! ## models.py : train_xgboost time-based split (lines 139-145) -/

/-- pandas Series.max over the date column (source assumes a nonempty
training table; the empty case is given an arbitrary default). -/
def maxDate : List ℤ → ℤ
  | [] => 0
  | d :: ds => ds.foldl max d

/-- split_date = df date max - 90 days. -/
def xgbSplitDate (dates : List ℤ) : ℤ := maxDate dates - 90

/-! ## data_pipeline.py : engineer_features (lines 223-303)

The raw Kaggle frame has one row per (date, store, item).  engineer_features
first groups by (date, item) summing sales, then sorts by (item, date) and
derives per-item lag / rolling / expanding statistics with pandas
groupby(item).  The purely date-derived temporal, cyclical and calendar
columns are total functions of the date and can never be NaN, so they play
no role in the final dropna and are omitted from the embedding; the columns
that can be NaN (lags, rolling statistics, expanding mean, merged weather,
item_category) are modelled as Option values. -/

structure SalesRec where
  date : ℤ
  store : ℤ
  item : ℤ
  sales : ℚ
deriving DecidableEq, Repr

/-- One row of the (date, item)-aggregated daily table. -/
structure DailyRow where
  date : ℤ
  item : ℤ
  sales : ℚ
deriving DecidableEq, Repr

/-- Strict lexicographic order on (item, date) keys: the sort order of
daily.sort_values with columns item then date. -/
def keyLt (a b : ℤ × ℤ) : Bool := a.1 < b.1 || (a.1 = b.1 && a.2 < b.2)

/-- Sorted insertion of a key, skipping duplicates: building block for the
groupby key set ordered by (item, date). -/
def insertKey (k : ℤ × ℤ) : List (ℤ × ℤ) → List (ℤ × ℤ)
  | [] => [k]
  | k' :: ks =>
      if keyLt k k' then k :: k' :: ks
      else if k = k' then k' :: ks
      else k' :: insertKey k ks

/-- The distinct (item, date) keys of the raw frame, sorted by (item, date):
the index produced by groupby(date, item) followed by
sort_values(item, date).  Keys are distinct, so any sort gives this list. -/
def sortedKeys (recs : List SalesRec) : List (ℤ × ℤ) :=
  recs.foldr (fun r ks => insertKey (r.item, r.date) ks) []

/-- groupby(date, item) sum of sales for one key. -/
def groupSales (recs : List SalesRec) (k : ℤ × ℤ) : ℚ :=
  ((recs.filter fun r => r.item = k.1 && r.date = k.2).map (·.sales)).sum

/-- The daily table: one row per (item, date) key, sales summed across
stores, sorted by (item, date). -/
def dailyTable (recs : List SalesRec) : List DailyRow :=
  (sortedKeys recs).map fun k => ⟨k.2, k.1, groupSales recs k⟩

/-- pandas groupby(item) group of the (item, date)-sorted table: the rows
with the given item, in table order. -/
def itemGroup (t : List DailyRow) (i : ℤ) : List DailyRow :=
  t.filter fun r => r.item = i

/-- The row that groupby(item).shift(lag) reads for the row at position p of
its item group: the row lag places earlier in the same group, none during
the warm-up (pandas NaN). -/
def lagSourceRow (g : List DailyRow) (p lag : ℕ) : Option DailyRow :=
  if lag ≤ p then g[p - lag]? else none

/-- The trailing window of rows that rolling(window, min_periods=1) reads
for the row at position p of its item group: the last min(window, p+1) rows
ending at position p. -/
def rollingWindow (g : List DailyRow) (p window : ℕ) : List DailyRow :=
  (g.take (p + 1)).drop (p + 1 - window)

/-- The rows that expanding(min_periods=1) reads at position p: every group
row up to and including position p. -/
def expandingWindow (g : List DailyRow) (p : ℕ) : List DailyRow :=
  g.take (p + 1)

/-- Arithmetic mean of a list of rationals (division by zero yields 0,
matching the convention that the callers below only use nonempty lists). -/
def listMean (l : List ℚ) : ℚ := l.sum / l.length

/-- Sample variance (ddof = 1), the square of the pandas rolling std. -/
def listVarSample (l : List ℚ) : ℚ :=
  ((l.map fun x => (x - listMean l) ^ 2).sum) / ((l.length : ℚ) - 1)

/-- Lag feature value at group position p. -/
def lagAt (g : List DailyRow) (p lag : ℕ) : Option ℚ :=
  (lagSourceRow g p lag).map (·.sales)

/-- Rolling mean at group position p (min_periods = 1: defined whenever the
row exists). -/
def rollMeanAt (g : List DailyRow) (p window : ℕ) : Option ℚ :=
  if p < g.length then some (listMean ((rollingWindow g p window).map (·.sales)))
  else none

/-- Rolling std at group position p, represented by the sample variance
(std = sqrt of this value): with ddof = 1 pandas yields NaN unless the
window holds at least two observations. -/
def rollVarAt (g : List DailyRow) (p window : ℕ) : Option ℚ :=
  if p < g.length ∧ 2 ≤ (rollingWindow g p window).length then
    some (listVarSample ((rollingWindow g p window).map (·.sales)))
  else none

/-- Expanding mean at group position p. -/
def expandingAt (g : List DailyRow) (p : ℕ) : Option ℚ :=
  if p < g.length then some (listMean ((expandingWindow g p).map (·.sales)))
  else none

structure WeatherRec where
  date : ℤ
  tempMax : ℚ
  tempMin : ℚ
  tempMean : ℚ
  precipitation : ℚ
  rainfall : ℚ
deriving DecidableEq, Repr

/-- Left merge of the weather frame on date (the cached weather frame holds
one row per date, so the first match is the match). -/
def weatherFor (weather : List WeatherRec) (d : ℤ) : Option WeatherRec :=
  (weather.filter fun w => w.date = d).head?

inductive FoodCategory where
  | veg | nonveg | beverage | dessert | snack
deriving DecidableEq, Repr

/-- categories = [veg, non-veg, beverage, dessert, snack] from the source. -/
def categoriesList : List FoodCategory :=
  [.veg, .nonveg, .beverage, .dessert, .snack]

/-- item_categories: items 1..50 get categories[(i-1) mod 5]; the pandas map
of any other item id yields NaN, modelled as none. -/
def itemCategoryMap (i : ℤ) : Option FoodCategory :=
  if 1 ≤ i ∧ i ≤ 50 then categoriesList[(i - 1).toNat % 5]? else none

/-- One row of the engineered table.  Option-valued fields are the columns
that pandas can leave as NaN and that the final dropna inspects. -/
structure FeatureRow where
  date : ℤ
  item : ℤ
  sales : ℚ
  lag1 : Option ℚ
  lag7 : Option ℚ
  lag14 : Option ℚ
  lag28 : Option ℚ
  rollMean7 : Option ℚ
  rollMean14 : Option ℚ
  rollMean30 : Option ℚ
  rollVar7 : Option ℚ
  rollVar14 : Option ℚ
  rollVar30 : Option ℚ
  expandingMean : Option ℚ
  weather : Option WeatherRec
  category : Option FoodCategory
deriving DecidableEq, Repr

/-- The engineered row for the table row r sitting at table index idx: its
group is the item group of r.item and its position p within that group is
the number of earlier same-item rows (the table is sorted by (item, date),
so the filter preserves positions). -/
def featureRowAt (t : List DailyRow) (weather : List WeatherRec)
    (idx : ℕ) (r : DailyRow) : FeatureRow :=
  let g := itemGroup t r.item
  let p := (t.take idx).countP fun x => x.item = r.item
  { date := r.date, item := r.item, sales := r.sales
  , lag1 := lagAt g p 1, lag7 := lagAt g p 7
  , lag14 := lagAt g p 14, lag28 := lagAt g p 28
  , rollMean7 := rollMeanAt g p 7, rollMean14 := rollMeanAt g p 14
  , rollMean30 := rollMeanAt g p 30
  , rollVar7 := rollVarAt g p 7, rollVar14 := rollVarAt g p 14
  , rollVar30 := rollVarAt g p 30
  , expandingMean := expandingAt g p
  , weather := weatherFor weather r.date
  , category := itemCategoryMap r.item }

/-- The engineered table before the final dropna. -/
def featureRows (recs : List SalesRec) (weather : List WeatherRec) :
    List FeatureRow :=
  let t := dailyTable recs
  t.enum.map fun ir => featureRowAt t weather ir.1 ir.2

/-- A row survives dropna iff none of its NaN-capable columns is NaN. -/
def rowComplete (fr : FeatureRow) : Bool :=
  fr.lag1.isSome && fr.lag7.isSome && fr.lag14.isSome && fr.lag28.isSome &&
  fr.rollMean7.isSome && fr.rollMean14.isSome && fr.rollMean30.isSome &&
  fr.rollVar7.isSome && fr.rollVar14.isSome && fr.rollVar30.isSome &&
  fr.expandingMean.isSome && fr.weather.isSome && fr.category.isSome

/-- engineer_features: the final training table, after dropna. -/
def engineerFeatures (recs : List SalesRec) (weather : List WeatherRec) :
    List FeatureRow :=
  (featureRows recs weather).filter rowComplete

/-! ## models.py : train_xgboost split masks over the engineered table -/

/-- train_mask: rows with date less than or equal to split_date. -/
def xgbTrainSet (rows : List FeatureRow) : List FeatureRow :=
  rows.filter fun r => r.date ≤ xgbSplitDate (rows.map (·.date))

/-- test_mask: rows with date strictly greater than split_date. -/
def xgbTestSet (rows : List FeatureRow) : List FeatureRow :=
  rows.filter fun r => xgbSplitDate (rows.map (·.date)) < r.date

/-! ## app.py : forecast generation (lines 88-221)

One ForecastPoint per future day.  Dates are day numbers counted from the
base date (today at midnight); the day_name string is a pure function of
the date and is omitted.  The fitted estimators are parameters:
  * xgbPred i     : the XGBoost regressor applied to the feature vector
                    synthesized for step i (template row + date fields);
  * arimaRaw i    : entry i of the SARIMA multi-step forecast array;
  * lstmPredict w : the Keras network applied to a scaled lookback window;
  * lstmInvScale  : scaler.inverse_transform on a single value. -/

structure ForecastPoint where
  date : ℤ
  predicted : ℚ
  lower : ℚ
  upper : ℚ
deriving DecidableEq, Repr

/-- generate_xgboost_forecast: per-day independent predictions, clamped at
zero, with the 0.85/1.15 heuristic band. -/
def generateXgboostForecast (xgbPred : ℕ → ℚ) (baseDate : ℤ) (days : ℕ) :
    List ForecastPoint :=
  (List.range days).map fun i =>
    let pred := max 0 (xgbPred i)
    { date := baseDate + i
    , predicted := round1 pred
    , lower := round1 (max 0 (pred * (85/100)))
    , upper := round1 (pred * (115/100)) }

/-- generate_arima_forecast: the multi-step SARIMA forecast, clamped at
zero by np.maximum, with the 0.80/1.20 band. -/
def generateArimaForecast (arimaRaw : ℕ → ℚ) (baseDate : ℤ) (days : ℕ) :
    List ForecastPoint :=
  (List.range days).map fun i =>
    let pred := max 0 (arimaRaw i)
    { date := baseDate + i
    , predicted := round1 pred
    , lower := round1 (max 0 (pred * (80/100)))
    , upper := round1 (pred * (120/100)) }

/-- current_input[-lookback:] with lookback = 30. -/
def takeLast (n : ℕ) (l : List α) : List α := l.drop (l.length - n)

/-- Trace record of one LSTM recursion step. -/
structure LstmStep where
  bufBefore : List ℚ
  window : List ℚ
  predScaled : ℚ
  point : ForecastPoint
deriving Repr

/-- The loop body of generate_lstm_forecast: at each step take the last 30
entries of current_input as the network input, predict the next scaled
value, report the clamped inverse-transformed value with the 0.82/1.18
band, then append the raw scaled prediction to current_input.  Returns the
per-step trace and the final current_input buffer. -/
def lstmRun (lstmPredict : List ℚ → ℚ) (lstmInvScale : ℚ → ℚ)
    (baseDate : ℤ) : ℕ → ℕ → List ℚ → List LstmStep × List ℚ
  | 0, _, buf => ([], buf)
  | days + 1, i, buf =>
      let window := takeLast 30 buf
      let predScaled := lstmPredict window
      let pred := max 0 (lstmInvScale predScaled)
      let pt : ForecastPoint :=
        { date := baseDate + i
        , predicted := round1 pred
        , lower := round1 (max 0 (pred * (82/100)))
        , upper := round1 (pred * (118/100)) }
      let rest := lstmRun lstmPredict lstmInvScale baseDate days (i + 1)
        (buf ++ [predScaled])
      (⟨buf, window, predScaled, pt⟩ :: rest.1, rest.2)

/-- generate_lstm_forecast: the points emitted by the recursion, seeded
with the scaled last-30-days buffer. -/
def generateLstmForecast (lstmPredict : List ℚ → ℚ) (lstmInvScale : ℚ → ℚ)
    (initialScaled : List ℚ) (baseDate : ℤ) (days : ℕ) :
    List ForecastPoint :=
  ((lstmRun lstmPredict lstmInvScale baseDate days 0 initialScaled).1).map
    (·.point)

inductive ModelName where
  | xgboost | sarima | lstm
deriving DecidableEq, Repr

/-- The process-wide model state: app.py sets loaded_model and
loaded_model_name together in load_best_model, so a single optional tag
models both (none = nothing loaded). -/
structure Env where
  baseDate : ℤ
  xgbPred : ℕ → ℚ
  arimaRaw : ℕ → ℚ
  lstmPredict : List ℚ → ℚ
  lstmInvScale : ℚ → ℚ
  lstmInitial : List ℚ

/-- generate_forecast: dispatch on loaded_model_name; the else branch
returns an empty list. -/
def generateForecast (env : Env) (name : Option ModelName) (days : ℕ) :
    List ForecastPoint :=
  match name with
  | some .xgboost => generateXgboostForecast env.xgbPred env.baseDate days
  | some .sarima => generateArimaForecast env.arimaRaw env.baseDate days
  | some .lstm =>
      generateLstmForecast env.lstmPredict env.lstmInvScale env.lstmInitial
        env.baseDate days
  | none => []

/-! ## app.py : aggregation and routes (lines 236-337) -/

/-- One element of the weekly/monthly response data.  total is the exact
sum of the slice (kept so that theorems can speak about the value the
source rounds); totalRounded, avg, lower, upper are the emitted
total_predicted_demand, avg_daily_demand and confidence fields. -/
structure AggPeriod where
  periodNumber : ℕ
  startDate : Option ℤ
  endDate : Option ℤ
  total : ℚ
  totalRounded : ℚ
  avg : ℚ
  lower : ℚ
  upper : ℚ
deriving DecidableEq, Repr

/-- The aggregation loop shared by weekly_forecast and monthly_forecast:
slice the daily points into numBuckets blocks of size bucketSize, skip
empty slices, and emit totals with the width-(wl, wu) band recomputed from
the slice total. -/
def aggregateBuckets (daily : List ForecastPoint) (numBuckets bucketSize : ℕ)
    (wl wu : ℚ) : List AggPeriod :=
  (List.range numBuckets).filterMap fun k =>
    let slice := (daily.drop (k * bucketSize)).take bucketSize
    if slice.isEmpty then none
    else
      let total := (slice.map (·.predicted)).sum
      some
        { periodNumber := k + 1
        , startDate := slice.head?.map (·.date)
        , endDate := slice.getLast?.map (·.date)
        , total := total
        , totalRounded := round1 total
        , avg := round1 (total / slice.length)
        , lower := round1 (total * wl)
        , upper := round1 (total * wu) }

/-- weekly_forecast aggregation: 7-day blocks, band 0.85/1.15 of the block
total for every model variant. -/
def weeklyData (daily : List ForecastPoint) (weeks : ℕ) : List AggPeriod :=
  aggregateBuckets daily weeks 7 (85/100) (115/100)

/-- monthly_forecast aggregation: 30-day blocks, band 0.82/1.18 of the
block total for every model variant. -/
def monthlyData (daily : List ForecastPoint) (months : ℕ) : List AggPeriod :=
  aggregateBuckets daily months 30 (82/100) (118/100)

/-- Flask responses: a 200 payload or an http error status with message. -/
inductive ApiResult (α : Type) where
  | ok (payload : α)
  | httpError (status : ℕ) (message : String)
deriving DecidableEq, Repr

/-- /api/forecast/daily: 503 with no model loaded, else min(days, 30)
forecast points. -/
def dailyForecast (env : Env) (active : Option ModelName) (daysParam : ℕ) :
    ApiResult (List ForecastPoint) :=
  match active with
  | none => .httpError 503 ("No model loaded. Run train.py first.")
  | some m => .ok (generateForecast env (some m) (min daysParam 30))

/-- /api/forecast/weekly: 503 with no model loaded, else min(weeks, 12)
weekly buckets over a weeks*7-day forecast. -/
def weeklyForecast (env : Env) (active : Option ModelName) (weeksParam : ℕ) :
    ApiResult (List AggPeriod) :=
  match active with
  | none => .httpError 503 ("No model loaded. Run train.py first.")
  | some m =>
      let weeks := min weeksParam 12
      .ok (weeklyData (generateForecast env (some m) (weeks * 7)) weeks)

/-- /api/forecast/monthly: 503 with no model loaded, else min(months, 6)
monthly buckets over a months*30-day forecast. -/
def monthlyForecast (env : Env) (active : Option ModelName)
    (monthsParam : ℕ) : ApiResult (List AggPeriod) :=
  match active with
  | none => .httpError 503 ("No model loaded. Run train.py first.")
  | some m =>
      let months := min monthsParam 6
      .ok (monthlyData (generateForecast env (some m) (months * 30)) months)

/-! # Theorems -/

/-! ## Helper lemmas -/

theorem pyRoundTo_zero (d : ℕ) : pyRoundTo d 0 = 0 := by
  unfold pyRoundTo
  rw [zero_mul, pyRoundInt_zero]
  norm_num

theorem zip_self (l : List ℚ) : l.zip l = l.map fun a => (a, a) := by
  induction l with
  | nil => rfl
  | cons a t ih => simp [List.zip_cons_cons, ih]

end Cafeteria

namespace Cafeteria

/-- Claim C8: compute_metrics on identical non-empty vectors returns
rmse = mae = mape = 0 (rmse stated through Real.sqrt of the stored mean
squared error); mape is computed only over positions with a positive
actual value, in the sense that it equals the mape of the masked
sub-vectors, and it is 0 when no actual value is positive. -/
theorem computeMetrics_contract :
    (∀ y : List ℚ, y ≠ [] →
        computeMetrics y y = ⟨0, 0, 0⟩
      ∧ Real.sqrt ((computeMetrics y y).rmseSq : ℝ) = 0)
  ∧ (∀ yTrue yPred : List ℚ, (∀ t ∈ yTrue, t ≤ 0) →
        (computeMetrics yTrue yPred).mape = 0)
  ∧ (∀ yTrue yPred : List ℚ,
        (computeMetrics yTrue yPred).mape
          = (computeMetrics
              (((yTrue.zip yPred).filter fun p => 0 < p.1).map Prod.fst)
              (((yTrue.zip yPred).filter fun p => 0 < p.1).map Prod.snd)).mape) := by
  refine ⟨?_, ?_, ?_⟩
  · intro y hy
    have hz : computeMetrics y y = ⟨0, 0, 0⟩ := by
      unfold computeMetrics
      rw [zip_self]
      have h1 : ((y.map fun a => (a, a)).map fun p => (p.1 - p.2) ^ 2).sum = 0 := by
        apply List.sum_eq_zero
        intro x hx
        simp only [List.map_map, List.mem_map] at hx
        obtain ⟨a, _, rfl⟩ := hx
        simp
      have h2 : ((y.map fun a => (a, a)).map fun p => |p.1 - p.2|).sum = 0 := by
        apply List.sum_eq_zero
        intro x hx
        simp only [List.map_map, List.mem_map] at hx
        obtain ⟨a, _, rfl⟩ := hx
        simp
      have h3 : ∀ (c : ℚ),
          ((((y.map fun a => (a, a)).filter fun p => 0 < p.1).map
            fun p => |(p.1 - p.2) / p.1|).sum) = 0 := by
        intro c
        apply List.sum_eq_zero
        intro x hx
        rw [List.mem_map] at hx
        obtain ⟨a, ha, rfl⟩ := hx
        rw [List.mem_filter, List.mem_map] at ha
        obtain ⟨⟨b, _, rfl⟩, _⟩ := ha
        simp
      simp only [h1, h2, h3 0]
      rw [Metrics.mk.injEq]
      refine ⟨by rw [zero_div], by rw [zero_div, pyRoundTo_zero], ?_⟩
      split
      · rw [zero_div, zero_mul, pyRoundTo_zero]
      · rw [pyRoundTo_zero]
    refine ⟨hz, ?_⟩
    rw [hz]
    simp
  · intro yTrue yPred h
    unfold computeMetrics
    have hempty : ((yTrue.zip yPred).filter fun p => 0 < p.1) = [] := by
      apply List.filter_eq_nil_iff.2
      intro p hp
      have := (List.of_mem_zip hp).1
      have := h p.1 this
      simp only [decide_eq_true_eq]
      linarith
    simp only [hempty]
    simp [pyRoundTo_zero]
  · intro yTrue yPred
    unfold computeMetrics
    set m := (yTrue.zip yPred).filter fun p => 0 < p.1 with hm
    have hzip : (m.map Prod.fst).zip (m.map Prod.snd) = m := by
      rw [List.zip_map']
      simp
    have hfilter : (m.filter fun p => 0 < p.1) = m := by
      apply List.filter_eq_self.2
      intro p hp
      rw [hm] at hp
      exact (List.mem_filter.1 hp).2
    simp only [hzip, hfilter]

end Cafeteria

namespace Cafeteria

/-- Witness for C8: concrete identical vectors and a concrete
positives-free actual vector. -/
theorem computeMetrics_contract_witness :
    computeMetrics [1, 2] [1, 2] = ⟨0, 0, 0⟩
  ∧ (computeMetrics [-1, 0] [5, 7]).mape = 0 := by
  constructor
  · exact (computeMetrics_contract.1 [1, 2] (by simp)).1
  · refine computeMetrics_contract.2.1 [-1, 0] [5, 7] ?_
    intro t ht
    fin_cases ht <;> norm_num

/-- Python min scanning: the result splits the scanned list into a strict
prefix of strictly larger keys, itself, and a suffix, and is a global
minimum. -/
theorem minByRmse_decomp :
    ∀ (l : List TrainResult) (b : TrainResult),
      ∃ pre post, b :: l = pre ++ minByRmse b l :: post
        ∧ (∀ r ∈ pre, (minByRmse b l).rmse < r.rmse)
        ∧ (∀ r ∈ b :: l, (minByRmse b l).rmse ≤ r.rmse) := by
  intro l
  induction l with
  | nil =>
      intro b
      exact ⟨[], [], by simp [minByRmse], by simp, by simp [minByRmse]⟩
  | cons r rs ih =>
      intro b
      by_cases hc : r.rmse < b.rmse
      · have hmin : minByRmse b (r :: rs) = minByRmse r rs := by
          simp [minByRmse, hc]
        obtain ⟨pre, post, heq, hpre, hle⟩ := ih r
        refine ⟨b :: pre, post, ?_, ?_, ?_⟩
        · rw [hmin]
          simpa using congrArg (List.cons b) heq
        · intro x hx
          rw [hmin]
          rcases List.mem_cons.1 hx with rfl | hx2
          · exact lt_of_le_of_lt (hle r (by simp)) hc
          · exact hpre x hx2
        · intro x hx
          rw [hmin]
          rcases List.mem_cons.1 hx with rfl | hx2
          · exact le_of_lt (lt_of_le_of_lt (hle r (by simp)) hc)
          · exact hle x hx2
      · have hmin : minByRmse b (r :: rs) = minByRmse b rs := by
          simp [minByRmse, hc]
        have hbr : b.rmse ≤ r.rmse := le_of_not_lt hc
        obtain ⟨pre, post, heq, hpre, hle⟩ := ih b
        cases pre with
        | nil =>
            simp only [List.nil_append] at heq
            have hb : minByRmse b rs = b := (List.cons.inj heq).1.symm
            refine ⟨[], r :: rs, ?_, by simp, ?_⟩
            · rw [hmin, hb]
              simp
            · intro x hx
              rw [hmin, hb]
              rcases List.mem_cons.1 hx with rfl | hx2
              · exact le_refl _
              · rcases List.mem_cons.1 hx2 with rfl | hx3
                · exact hbr
                · have := hle x (by simp [hx3])
                  rw [hb] at this
                  exact this
        | cons x pre' =>
            have heq2 : b :: rs = x :: (pre' ++ minByRmse b rs :: post) := by
              simpa using heq
            have hxb : b = x := (List.cons.inj heq2).1
            have hrs : rs = pre' ++ minByRmse b rs :: post :=
              (List.cons.inj heq2).2
            subst hxb
            have hblt : (minByRmse b rs).rmse < b.rmse := hpre b (by simp)
            refine ⟨b :: r :: pre', post, ?_, ?_, ?_⟩
            · rw [hmin]
              simp only [List.cons_append]
              rw [← hrs]
            · intro z hz
              rw [hmin]
              rcases List.mem_cons.1 hz with rfl | hz2
              · exact hblt
              · rcases List.mem_cons.1 hz2 with rfl | hz3
                · exact lt_of_lt_of_le hblt hbr
                · exact hpre z (by simp [hz3])
            · intro z hz
              rw [hmin]
              rcases List.mem_cons.1 hz with rfl | hz2
              · exact le_of_lt hblt
              · rcases List.mem_cons.1 hz2 with rfl | hz3
                · exact le_of_lt (lt_of_lt_of_le hblt hbr)
                · exact hle z (by simp [hz3])

/-- Claim C3: select_best_model errors iff every trainer result is null;
otherwise it returns a non-null candidate of globally minimal rmse that is
preceded (in evaluation order ARIMA, XGBoost, LSTM, the order of the
results list) only by candidates with strictly larger rmse, so the
first-seen candidate wins ties; concretely, with candidates
A (rmse 5), B (rmse 3) and a null third result it returns B. -/
theorem selectBestModel_spec :
    (∀ results : List (Option TrainResult),
        (∃ e, selectBestModel results = .error e) ↔ ∀ r ∈ results, r = none)
  ∧ (∀ results b, selectBestModel results = .ok b →
        some b ∈ results
      ∧ (∀ r ∈ results.filterMap id, b.rmse ≤ r.rmse)
      ∧ ∃ pre post, results.filterMap id = pre ++ b :: post
          ∧ ∀ r ∈ pre, b.rmse < r.rmse)
  ∧ selectBestModel
        [some ⟨"ARIMA", 5, 5, 5⟩, some ⟨"XGBoost", 3, 3, 3⟩, none]
      = .ok ⟨"XGBoost", 3, 3, 3⟩ := by
  refine ⟨?_, ?_, ?_⟩
  · intro results
    constructor
    · rintro ⟨e, he⟩
      intro r hr
      unfold selectBestModel at he
      rcases hval : results.filterMap id with _ | ⟨v, vs⟩
      · have := List.filterMap_eq_nil_iff.1 hval r hr
        simpa using this
      · rw [hval] at he
        simp at he
    · intro h
      have hval : results.filterMap id = [] := by
        apply List.filterMap_eq_nil_iff.2
        intro a ha
        rw [h a ha]
        rfl
      refine ⟨"No models were successfully trained!", ?_⟩
      unfold selectBestModel
      rw [hval]
  · intro results b hok
    unfold selectBestModel at hok
    rcases hval : results.filterMap id with _ | ⟨v, vs⟩
    · rw [hval] at hok
      simp at hok
    · rw [hval] at hok
      have hb : b = minByRmse v vs := by
        have := hok
        simp only [Except.ok.injEq] at this
        exact this.symm
      obtain ⟨pre, post, heq, hpre, hle⟩ := minByRmse_decomp vs v
      rw [← hb] at heq hpre hle
      have hmem : b ∈ v :: vs := by
        rw [heq]
        exact List.mem_append_right _ (by simp)
      refine ⟨?_, ?_, ?_⟩
      · have : b ∈ results.filterMap id := by rw [hval]; exact hmem
        rw [List.mem_filterMap] at this
        obtain ⟨a, ha, hia⟩ := this
        cases a with
        | none => simp at hia
        | some x =>
            have : x = b := by simpa using hia
            rw [← this]
            exact ha
      · intro r hr
        exact hle r hr
      · exact ⟨pre, post, heq, hpre⟩
  · show selectBestModel _ = _
    unfold selectBestModel
    norm_num [List.filterMap, minByRmse]

/-- Witness for C3: the concrete selection returns candidate B, which is a
non-null result with minimal rmse. -/
theorem selectBestModel_spec_witness :
    some (⟨"XGBoost", 3, 3, 3⟩ : TrainResult)
      ∈ [some (⟨"ARIMA", 5, 5, 5⟩ : TrainResult),
         some ⟨"XGBoost", 3, 3, 3⟩, none] :=
  (selectBestModel_spec.2.1
    [some ⟨"ARIMA", 5, 5, 5⟩, some ⟨"XGBoost", 3, 3, 3⟩, none]
    ⟨"XGBoost", 3, 3, 3⟩ selectBestModel_spec.2.2).1

end Cafeteria

namespace Cafeteria

/-- Claim C7: the test set of the tree-ensemble trainer is exactly the set
of rows whose date lies within the trailing 90 days below the maximum date of the table, and every test date is strictly greater than every train date. -/
theorem xgbSplit_spec :
    ∀ rows : List FeatureRow,
      xgbTestSet rows
        = rows.filter (fun r => maxDate (rows.map (·.date)) - r.date < 90)
    ∧ ∀ t ∈ xgbTestSet rows, ∀ s ∈ xgbTrainSet rows, s.date < t.date := by
  intro rows
  constructor
  · unfold xgbTestSet xgbSplitDate
    apply List.filter_congr
    intro r _
    simp only [decide_eq_decide]
    omega
  · intro t ht s hs
    unfold xgbTestSet at ht
    unfold xgbTrainSet at hs
    have h1 : xgbSplitDate (rows.map (·.date)) < t.date := by
      have := (List.mem_filter.1 ht).2
      simpa using this
    have h2 : s.date ≤ xgbSplitDate (rows.map (·.date)) := by
      have := (List.mem_filter.1 hs).2
      simpa using this
    omega

/-- A featureless row used to exercise the split on concrete dates. -/
def bareRow (d : ℤ) : FeatureRow :=
  ⟨d, 1, 0, none, none, none, none, none, none, none, none, none, none,
   none, none, none⟩

/-- Witness for C7: with rows dated 0 and 100 the row dated 100 is in the
test set, the row dated 0 in the train set, and 0 < 100. -/
theorem xgbSplit_spec_witness :
    (bareRow 0).date < (bareRow 100).date := by
  refine (xgbSplit_spec [bareRow 0, bareRow 100]).2 (bareRow 100) ?_
    (bareRow 0) ?_
  · unfold xgbTestSet xgbSplitDate maxDate bareRow
    simp
  · unfold xgbTrainSet xgbSplitDate maxDate bareRow
    simp

end Cafeteria

namespace Cafeteria

/-- Claim C9: with no trained model active the forecast engine returns an
empty sequence rather than failing, and the daily/weekly/monthly routes
answer 503 service-unavailable, never a 200 payload. -/
theorem noModel_unavailable :
    ∀ (env : Env) (days weeksP monthsP : ℕ),
      generateForecast env none days = []
    ∧ dailyForecast env none days
        = .httpError 503 ("No model loaded. Run train.py first.")
    ∧ weeklyForecast env none weeksP
        = .httpError 503 ("No model loaded. Run train.py first.")
    ∧ monthlyForecast env none monthsP
        = .httpError 503 ("No model loaded. Run train.py first.")
    ∧ (∀ payload, dailyForecast env none days ≠ .ok payload) := by
  intro env days weeksP monthsP
  refine ⟨rfl, rfl, rfl, rfl, ?_⟩
  intro payload h
  exact ApiResult.noConfusion h

/-! ## lstmRun helper lemmas (shared by C4 and C6) -/

theorem lstmRun_length (f : List ℚ → ℚ) (g : ℚ → ℚ) (base : ℤ) :
    ∀ (d i : ℕ) (buf : List ℚ),
      ((lstmRun f g base d i buf).1).length = d := by
  intro d
  induction d with
  | zero => intro i buf; rfl
  | succ d ih =>
      intro i buf
      simp only [lstmRun, List.length_cons, ih]

theorem lstmRun_trace (f : List ℚ → ℚ) (g : ℚ → ℚ) (base : ℤ) :
    ∀ (d i : ℕ) (buf : List ℚ) (s : LstmStep),
      s ∈ (lstmRun f g base d i buf).1 →
        s.window = takeLast 30 s.bufBefore
      ∧ s.predScaled = f s.window
      ∧ s.point.predicted = round1 (max 0 (g s.predScaled))
      ∧ s.point.lower = round1 (max 0 ((max 0 (g s.predScaled)) * (82/100)))
      ∧ s.point.upper = round1 ((max 0 (g s.predScaled)) * (118/100))
      ∧ buf.length ≤ s.bufBefore.length := by
  intro d
  induction d with
  | zero => intro i buf s hs; simp [lstmRun] at hs
  | succ d ih =>
      intro i buf s hs
      simp only [lstmRun, List.mem_cons] at hs
      rcases hs with rfl | hs2
      · exact ⟨rfl, rfl, rfl, rfl, rfl, le_refl _⟩
      · have h := ih (i + 1) (buf ++ [f (takeLast 30 buf)]) s hs2
        refine ⟨h.1, h.2.1, h.2.2.1, h.2.2.2.1, h.2.2.2.2.1, ?_⟩
        have := h.2.2.2.2.2
        simp only [List.length_append, List.length_cons, List.length_nil] at this
        omega

theorem lstmRun_finalBuf (f : List ℚ → ℚ) (g : ℚ → ℚ) (base : ℤ) :
    ∀ (d i : ℕ) (buf : List ℚ),
      (lstmRun f g base d i buf).2
        = buf ++ ((lstmRun f g base d i buf).1).map (·.predScaled) := by
  intro d
  induction d with
  | zero => intro i buf; simp [lstmRun]
  | succ d ih =>
      intro i buf
      simp only [lstmRun, List.map_cons]
      rw [ih (i + 1) (buf ++ [f (takeLast 30 buf)])]
      simp

theorem lstmRun_head_bufBefore (f : List ℚ → ℚ) (g : ℚ → ℚ) (base : ℤ) :
    ∀ (d i : ℕ) (buf : List ℚ) (s : LstmStep),
      ((lstmRun f g base d i buf).1).head? = some s → s.bufBefore = buf := by
  intro d
  cases d with
  | zero => intro i buf s hs; simp [lstmRun] at hs
  | succ d =>
      intro i buf s hs
      simp only [lstmRun, List.head?_cons, Option.some.injEq] at hs
      rw [← hs]

theorem lstmRun_chain (f : List ℚ → ℚ) (g : ℚ → ℚ) (base : ℤ) :
    ∀ (d i : ℕ) (buf : List ℚ),
      List.Chain' (fun s t => t.bufBefore = s.bufBefore ++ [s.predScaled])
        ((lstmRun f g base d i buf).1) := by
  intro d
  induction d with
  | zero => intro i buf; simp [lstmRun]
  | succ d ih =>
      intro i buf
      simp only [lstmRun]
      rw [List.chain'_cons']
      refine ⟨?_, ih (i + 1) (buf ++ [f (takeLast 30 buf)])⟩
      intro t ht
      have := lstmRun_head_bufBefore f g base d (i + 1)
        (buf ++ [f (takeLast 30 buf)]) t ht
      simpa using this

end Cafeteria

namespace Cafeteria

theorem takeLast_length {α : Type} (n : ℕ) (l : List α) (h : n ≤ l.length) :
    (takeLast n l).length = n := by
  unfold takeLast
  rw [List.length_drop]
  omega

theorem getLast?_drop {α : Type} :
    ∀ (l : List α) (k : ℕ), k < l.length →
      (l.drop k).getLast? = l.getLast? := by
  intro l
  induction l with
  | nil => intro k h; simp at h
  | cons a t ih =>
      intro k h
      cases k with
      | zero => simp
      | succ k =>
          simp only [List.length_cons] at h
          have ht : k < t.length := by omega
          have hne : t ≠ [] := by
            intro hnil
            rw [hnil] at ht
            simp at ht
          rw [List.drop_succ_cons, ih k ht]
          rcases t with _ | ⟨b, t2⟩
          · simp at hne
          · rw [List.getLast?_cons_cons]

theorem takeLast_concat_getLast? (l : List ℚ) (x : ℚ) :
    (takeLast 30 (l ++ [x])).getLast? = some x := by
  unfold takeLast
  have hlt : (l ++ [x]).length - 30 < (l ++ [x]).length := by
    simp only [List.length_append, List.length_cons, List.length_nil]
    omega
  rw [getLast?_drop (l ++ [x]) _ hlt]
  simp

theorem lstmRun_window_chain (f : List ℚ → ℚ) (g : ℚ → ℚ) (base : ℤ) :
    ∀ (d i : ℕ) (buf : List ℚ),
      List.Chain' (fun s t => t.window.getLast? = some s.predScaled)
        ((lstmRun f g base d i buf).1) := by
  intro d
  induction d with
  | zero => intro i buf; simp [lstmRun]
  | succ d ih =>
      intro i buf
      simp only [lstmRun]
      rw [List.chain'_cons']
      refine ⟨?_, ih (i + 1) (buf ++ [f (takeLast 30 buf)])⟩
      intro t ht
      have hbuf := lstmRun_head_bufBefore f g base d (i + 1)
        (buf ++ [f (takeLast 30 buf)]) t ht
      have htm : t ∈ (lstmRun f g base d (i + 1)
          (buf ++ [f (takeLast 30 buf)])).1 := by
        rcases hh : (lstmRun f g base d (i + 1)
            (buf ++ [f (takeLast 30 buf)])).1 with _ | ⟨u, us⟩
        · rw [hh] at ht
          simp at ht
        · rw [hh] at ht
          have htu : u = t := by simpa using ht
          rw [← htu]
          simp
      have hw := (lstmRun_trace f g base d (i + 1)
        (buf ++ [f (takeLast 30 buf)]) t htm).1
      rw [hw, hbuf]
      exact takeLast_concat_getLast? buf (f (takeLast 30 buf))

/-- Claim C4: the sequence-model forecast for horizon H performs exactly H
recursive steps; each step reads the last 30 entries of the buffer and
appends the raw predicted scaled value (the reported point instead holds
the clamped, inverse-transformed value); the effective lookback window
keeps length 30 whenever the seed buffer has the 30 actual scaled daily
totals; and each step after the first reads a window whose last entry is
the raw prediction of the previous step, so each subsequent prediction depends
on prior predictions. -/
theorem lstm_recursion_spec :
    ∀ (f : List ℚ → ℚ) (g : ℚ → ℚ) (base : ℤ) (days : ℕ)
      (initial : List ℚ),
      ((lstmRun f g base days 0 initial).1).length = days
    ∧ (generateLstmForecast f g initial base days).length = days
    ∧ (∀ s ∈ (lstmRun f g base days 0 initial).1,
          s.window = takeLast 30 s.bufBefore
        ∧ s.predScaled = f s.window
        ∧ s.point.predicted = round1 (max 0 (g s.predScaled))
        ∧ (initial.length = 30 → s.window.length = 30))
    ∧ (lstmRun f g base days 0 initial).2
        = initial ++ ((lstmRun f g base days 0 initial).1).map (·.predScaled)
    ∧ List.Chain' (fun s t => t.bufBefore = s.bufBefore ++ [s.predScaled])
        ((lstmRun f g base days 0 initial).1)
    ∧ List.Chain' (fun s t => t.window.getLast? = some s.predScaled)
        ((lstmRun f g base days 0 initial).1) := by
  intro f g base days initial
  refine ⟨lstmRun_length f g base days 0 initial, ?_, ?_, ?_, ?_, ?_⟩
  · unfold generateLstmForecast
    rw [List.length_map]
    exact lstmRun_length f g base days 0 initial
  · intro s hs
    have h := lstmRun_trace f g base days 0 initial s hs
    refine ⟨h.1, h.2.1, h.2.2.1, ?_⟩
    intro h30
    rw [h.1]
    apply takeLast_length
    have := h.2.2.2.2.2
    omega
  · exact lstmRun_finalBuf f g base days 0 initial
  · exact lstmRun_chain f g base days 0 initial
  · exact lstmRun_window_chain f g base days 0 initial

/-- Step produced by the concrete one-step run used as a C4 witness. -/
def zeroStep : LstmStep :=
  ⟨List.replicate 30 0, List.replicate 30 0, 0, ⟨0, 0, 0, 0⟩⟩

/-- Witness for C4: a one-step run over a length-30 zero buffer with the
constant-zero network; the traced step has a full 30-length window. -/
theorem lstm_recursion_spec_witness :
    zeroStep.window.length = 30
  ∧ ((lstmRun (fun _ => (0 : ℚ)) id 0 1 0 (List.replicate 30 0)).1).length
      = 1 := by
  have h := lstm_recursion_spec (fun _ => (0 : ℚ)) id 0 1 (List.replicate 30 0)
  constructor
  · have hmem : zeroStep ∈ (lstmRun (fun _ => (0 : ℚ)) id 0 1 0
        (List.replicate 30 0)).1 := by
      simp only [lstmRun, List.mem_cons]
      left
      unfold zeroStep takeLast
      simp [round1_zero]
    exact (h.2.2.1 zeroStep hmem).2.2.2 (by simp)
  · exact h.1

end Cafeteria

namespace Cafeteria

/-- Claim C6: for every horizon and every fitted model function, every
point emitted by any of the three forecast paths has a non-negative
predicted_demand, even when the raw model output is negative. -/
theorem forecast_nonneg :
    ∀ (xgbPred arimaRaw : ℕ → ℚ) (lstmPredict : List ℚ → ℚ)
      (lstmInvScale : ℚ → ℚ) (initial : List ℚ) (base : ℤ) (days : ℕ),
      (∀ p ∈ generateXgboostForecast xgbPred base days, 0 ≤ p.predicted)
    ∧ (∀ p ∈ generateArimaForecast arimaRaw base days, 0 ≤ p.predicted)
    ∧ (∀ p ∈ generateLstmForecast lstmPredict lstmInvScale initial base days,
        0 ≤ p.predicted) := by
  intro xgbPred arimaRaw lstmPredict lstmInvScale initial base days
  refine ⟨?_, ?_, ?_⟩
  · intro p hp
    unfold generateXgboostForecast at hp
    rw [List.mem_map] at hp
    obtain ⟨i, _, rfl⟩ := hp
    exact round1_nonneg (le_max_left 0 _)
  · intro p hp
    unfold generateArimaForecast at hp
    rw [List.mem_map] at hp
    obtain ⟨i, _, rfl⟩ := hp
    exact round1_nonneg (le_max_left 0 _)
  · intro p hp
    unfold generateLstmForecast at hp
    rw [List.mem_map] at hp
    obtain ⟨s, hs, rfl⟩ := hp
    have h := (lstmRun_trace lstmPredict lstmInvScale base days 0 initial
      s hs).2.2.1
    rw [h]
    exact round1_nonneg (le_max_left 0 _)

/-- Witness for C6: a concrete ARIMA-path forecast whose raw model output
is negative still reports a (zero, hence non-negative) demand. -/
theorem forecast_nonneg_witness :
    0 ≤ (ForecastPoint.mk 0 (round1 (max 0 (-5 : ℚ)))
          (round1 (max 0 ((max 0 (-5 : ℚ)) * (80/100))))
          (round1 ((max 0 (-5 : ℚ)) * (120/100)))).predicted := by
  refine (forecast_nonneg (fun _ => 0) (fun _ => -5) (fun _ => 0) id [] 0
    1).2.1 _ ?_
  unfold generateArimaForecast
  simp [List.range_succ]

end Cafeteria

namespace Cafeteria

theorem bucket_sums (B : ℕ) :
    ∀ (n : ℕ) (l : List ℚ), l.length ≤ n * B →
      ((List.range n).map fun k => ((l.drop (k * B)).take B).sum).sum
        = l.sum := by
  intro n
  induction n with
  | zero =>
      intro l h
      simp only [Nat.zero_mul, Nat.le_zero] at h
      rw [List.length_eq_zero] at h
      simp [h]
  | succ n ih =>
      intro l h
      rw [List.range_succ_eq_map]
      simp only [List.map_cons, List.sum_cons, List.map_map]
      have hzero : (l.drop (0 * B)).take B = l.take B := by
        simp
      have hcomp :
          (List.map ((fun k => ((l.drop (k * B)).take B).sum) ∘ Nat.succ)
            (List.range n))
            = (List.range n).map fun k =>
              (((l.drop B).drop (k * B)).take B).sum := by
        apply List.map_congr_left
        intro k _
        show ((l.drop ((k + 1) * B)).take B).sum = _
        have hkb : (k + 1) * B = B + k * B := by ring
        rw [hkb, List.drop_drop]
      have hlen2 : (l.drop B).length ≤ n * B := by
        rw [List.length_drop]
        have := h
        simp only [Nat.succ_mul] at this
        omega
      rw [hzero, hcomp, ih (l.drop B) hlen2]
      exact List.sum_take_add_sum_drop l B

theorem sum_map_filterMap_eq {α : Type} (f : α → Option AggPeriod)
    (g : AggPeriod → ℚ) (h : α → ℚ) :
    ∀ l : List α, (∀ a ∈ l, ((f a).map g).getD 0 = h a) →
      (((l.filterMap f).map g).sum) = ((l.map h).sum) := by
  intro l
  induction l with
  | nil => intro _; rfl
  | cons a t ih =>
      intro hpt
      have hta := hpt a (by simp)
      rcases hfa : f a with _ | b
      · rw [List.filterMap_cons_none hfa, List.map_cons, List.sum_cons,
          ← hta, hfa]
        simp only [Option.map_none', Option.getD_none, zero_add]
        exact ih fun x hx => hpt x (by simp [hx])
      · rw [List.filterMap_cons_some hfa, List.map_cons, List.sum_cons,
          List.map_cons, List.sum_cons, ← hta, hfa]
        simp only [Option.map_some', Option.getD_some]
        rw [ih fun x hx => hpt x (by simp [hx])]

theorem aggregateBuckets_sum (daily : List ForecastPoint) (n B : ℕ)
    (wl wu : ℚ) (hT : ∀ p ∈ daily, isTenth p.predicted)
    (hlen : daily.length ≤ n * B) :
    ((aggregateBuckets daily n B wl wu).map (·.totalRounded)).sum
      = (daily.map (·.predicted)).sum := by
  unfold aggregateBuckets
  rw [sum_map_filterMap_eq _ _
    (fun k => (((daily.map (·.predicted)).drop (k * B)).take B).sum)
    (List.range n) ?_]
  · exact bucket_sums B n (daily.map (·.predicted)) (by simpa using hlen)
  · intro k _
    have hslice : ((daily.drop (k * B)).take B).map (·.predicted)
        = ((daily.map (·.predicted)).drop (k * B)).take B := by
      rw [List.map_take, List.map_drop]
    by_cases hemp : ((daily.drop (k * B)).take B).isEmpty = true
    · rw [if_pos hemp]
      simp only [Option.map_none', Option.getD_none]
      rw [List.isEmpty_iff] at hemp
      rw [← hslice, hemp]
      simp
    · rw [if_neg hemp]
      simp only [Option.map_some', Option.getD_some]
      show round1 ((((daily.drop (k * B)).take B).map (·.predicted)).sum) = _
      have htenth : isTenth ((((daily.drop (k * B)).take B).map
          (·.predicted)).sum) := by
        apply isTenth_sum
        intro q hq
        rw [List.mem_map] at hq
        obtain ⟨p, hp, rfl⟩ := hq
        exact hT p (List.mem_of_mem_drop (List.mem_of_mem_take hp))
      rw [round1_of_isTenth htenth, hslice]

/-- Claim C5: for any point sequence whose predicted demands are tenths of
a unit (every emitted point is, being round(-, 1) values) and any request
whose bucket count covers the sequence, the total_predicted_demand values
of the weekly (7-day) and monthly (30-day) aggregations sum to the sum of
the daily predicted demands. -/
theorem aggregation_sum_invariant :
    ∀ (daily : List ForecastPoint) (weeks months : ℕ),
      (∀ p ∈ daily, isTenth p.predicted) →
      (daily.length ≤ weeks * 7 →
        ((weeklyData daily weeks).map (·.totalRounded)).sum
          = (daily.map (·.predicted)).sum)
    ∧ (daily.length ≤ months * 30 →
        ((monthlyData daily months).map (·.totalRounded)).sum
          = (daily.map (·.predicted)).sum) := by
  intro daily weeks months hT
  constructor
  · intro hlen
    exact aggregateBuckets_sum daily weeks 7 (85/100) (115/100) hT hlen
  · intro hlen
    exact aggregateBuckets_sum daily months 30 (82/100) (118/100) hT hlen

/-- Witness for C5: two concrete points with tenth-valued demands 0.3 and
0.7; the single weekly bucket total equals their sum. -/
theorem aggregation_sum_invariant_witness :
    ((weeklyData [⟨0, 3/10, 0, 0⟩, ⟨1, 7/10, 0, 0⟩] 1).map
      (·.totalRounded)).sum
      = (([⟨0, 3/10, 0, 0⟩, ⟨1, 7/10, 0, 0⟩] : List ForecastPoint).map
          (·.predicted)).sum := by
  refine (aggregation_sum_invariant [⟨0, 3/10, 0, 0⟩, ⟨1, 7/10, 0, 0⟩] 1 1
    ?_).1 (by simp)
  intro p hp
  rcases List.mem_cons.1 hp with rfl | hp2
  · exact ⟨3, by norm_num⟩
  · rcases List.mem_cons.1 hp2 with rfl | hp3
    · exact ⟨7, by norm_num⟩
    · simp at hp3

end Cafeteria

namespace Cafeteria

theorem round1_eq (x : ℚ) (z : ℤ) (h : x * 10 = (z : ℚ)) :
    round1 x = (z : ℚ) / 10 := by
  unfold round1 pyRoundTo
  rw [pow_one, h, pyRoundInt_intCast]

/-- A concrete server environment whose SARIMA forecast is the constant
raw value 10 for every step. -/
def env0 : Env := ⟨0, fun _ => 0, fun _ => 10, fun _ => 0, id, []⟩

theorem arima_env0_eval :
    generateForecast env0 (some ModelName.sarima) 7
      = [⟨0, 10, 8, 12⟩, ⟨1, 10, 8, 12⟩, ⟨2, 10, 8, 12⟩, ⟨3, 10, 8, 12⟩,
         ⟨4, 10, 8, 12⟩, ⟨5, 10, 8, 12⟩, ⟨6, 10, 8, 12⟩] := by
  have hm : max (0 : ℚ) 10 = 10 := by norm_num
  have h10 : round1 (max (0 : ℚ) 10) = 10 := by
    rw [hm, round1_eq 10 100 (by norm_num)]
    norm_num
  have h8 : round1 (max (0 : ℚ) (max (0 : ℚ) 10 * (80/100))) = 8 := by
    rw [hm, show max (0 : ℚ) (10 * (80/100)) = 8 by norm_num,
      round1_eq 8 80 (by norm_num)]
    norm_num
  have h12 : round1 (max (0 : ℚ) 10 * (120/100)) = 12 := by
    rw [hm, show (10 : ℚ) * (120/100) = 12 by norm_num,
      round1_eq 12 120 (by norm_num)]
    norm_num
  show generateArimaForecast env0.arimaRaw env0.baseDate 7 = _
  unfold generateArimaForecast env0
  rw [show List.range 7 = [0, 1, 2, 3, 4, 5, 6] from rfl]
  simp only [List.map_cons, List.map_nil, h10, h8, h12]
  norm_num

theorem weekly_env0_eval :
    weeklyForecast env0 (some ModelName.sarima) 1
      = .ok [⟨1, some 0, some 6, 70, 70, 10, 119/2, 161/2⟩] := by
  show ApiResult.ok
      (weeklyData (generateForecast env0 (some ModelName.sarima)
        (min 1 12 * 7)) (min 1 12)) = _
  rw [show min 1 12 * 7 = 7 from rfl, arima_env0_eval,
    show min 1 12 = 1 from rfl]
  unfold weeklyData aggregateBuckets
  rw [show List.range 1 = [0] from rfl]
  simp only [List.filterMap_cons, List.filterMap_nil, Nat.zero_mul,
    List.drop_zero]
  rw [show List.take 7
      ([⟨0, 10, 8, 12⟩, ⟨1, 10, 8, 12⟩, ⟨2, 10, 8, 12⟩, ⟨3, 10, 8, 12⟩,
        ⟨4, 10, 8, 12⟩, ⟨5, 10, 8, 12⟩, ⟨6, 10, 8, 12⟩]
        : List ForecastPoint)
      = [⟨0, 10, 8, 12⟩, ⟨1, 10, 8, 12⟩, ⟨2, 10, 8, 12⟩, ⟨3, 10, 8, 12⟩,
         ⟨4, 10, 8, 12⟩, ⟨5, 10, 8, 12⟩, ⟨6, 10, 8, 12⟩] from rfl]
  have hsum : (([⟨0, 10, 8, 12⟩, ⟨1, 10, 8, 12⟩, ⟨2, 10, 8, 12⟩,
      ⟨3, 10, 8, 12⟩, ⟨4, 10, 8, 12⟩, ⟨5, 10, 8, 12⟩, ⟨6, 10, 8, 12⟩]
      : List ForecastPoint).map (·.predicted)).sum = 70 := by
    simp only [List.map_cons, List.map_nil, List.sum_cons, List.sum_nil]
    norm_num
  simp only [List.isEmpty_cons, hsum]
  have ht : round1 (70 : ℚ) = 70 := by
    rw [round1_eq 70 700 (by norm_num)]
    norm_num
  have ha : round1 ((70 : ℚ) / ↑([⟨0, 10, 8, 12⟩, ⟨1, 10, 8, 12⟩,
      ⟨2, 10, 8, 12⟩, ⟨3, 10, 8, 12⟩, ⟨4, 10, 8, 12⟩, ⟨5, 10, 8, 12⟩,
      ⟨6, 10, 8, 12⟩] : List ForecastPoint).length) = 10 := by
    rw [show (([⟨0, 10, 8, 12⟩, ⟨1, 10, 8, 12⟩, ⟨2, 10, 8, 12⟩,
      ⟨3, 10, 8, 12⟩, ⟨4, 10, 8, 12⟩, ⟨5, 10, 8, 12⟩, ⟨6, 10, 8, 12⟩]
      : List ForecastPoint).length : ℚ) = 7 by norm_num,
      show (70 : ℚ) / 7 = 10 by norm_num, round1_eq 10 100 (by norm_num)]
    norm_num
  have hl : round1 ((70 : ℚ) * (85/100)) = 119/2 := by
    rw [round1_eq _ 595 (by norm_num)]
    norm_num
  have hu : round1 ((70 : ℚ) * (115/100)) = 161/2 := by
    rw [round1_eq _ 805 (by norm_num)]
    norm_num
  simp only [ht, ha, hl, hu]
  norm_num

/-- Claim C1 counterexample: with the statistical variant active (whose
daily band widths are 0.80/1.20), a weekly aggregation request over a
constant raw forecast of 10 produces the bucket band 59.5/80.5, which is
0.85/1.15 of the bucket total 70, not the claimed 0.80/1.20 of the total
(56/84). -/
theorem c1_counterexample :
    weeklyForecast env0 (some ModelName.sarima) 1
      = .ok [⟨1, some 0, some 6, 70, 70, 10, 119/2, 161/2⟩]
    ∧ ((119 : ℚ)/2 ≠ round1 ((70 : ℚ) * (80/100))
    ∧ (161 : ℚ)/2 ≠ round1 ((70 : ℚ) * (120/100))) := by
  refine ⟨weekly_env0_eval, ?_, ?_⟩
  · rw [show (70 : ℚ) * (80/100) = 56 by norm_num,
      round1_eq 56 560 (by norm_num)]
    norm_num
  · rw [show (70 : ℚ) * (120/100) = 84 by norm_num,
      round1_eq 84 840 (by norm_num)]
    norm_num

theorem aggregateBuckets_mem_band {daily : List ForecastPoint}
    {n B : ℕ} {wl wu : ℚ} {b : AggPeriod}
    (hb : b ∈ aggregateBuckets daily n B wl wu) :
    b.lower = round1 (b.total * wl) ∧ b.upper = round1 (b.total * wu) := by
  unfold aggregateBuckets at hb
  rw [List.mem_filterMap] at hb
  obtain ⟨k, _, hk⟩ := hb
  by_cases hemp : ((daily.drop (k * B)).take B).isEmpty = true
  · rw [if_pos hemp] at hk
    simp at hk
  · rw [if_neg hemp] at hk
    have hb2 := (Option.some.inj hk).symm
    rw [hb2]
    exact ⟨rfl, rfl⟩

/-- Claim C1 (amended): for every active model variant the aggregated
confidence band is a fixed percentage of the period total, but the widths
are per-endpoint rather than per-variant: the weekly endpoint always uses
0.85/1.15 of the bucket total and the monthly endpoint always uses
0.82/1.18, whichever model variant is active. -/
theorem aggregation_band_fixed_widths :
    ∀ (env : Env) (m : ModelName) (wp mp : ℕ) (bs : List AggPeriod)
      (b : AggPeriod),
      (weeklyForecast env (some m) wp = .ok bs → b ∈ bs →
          b.lower = round1 (b.total * (85/100))
        ∧ b.upper = round1 (b.total * (115/100)))
    ∧ (monthlyForecast env (some m) mp = .ok bs → b ∈ bs →
          b.lower = round1 (b.total * (82/100))
        ∧ b.upper = round1 (b.total * (118/100))) := by
  intro env m wp mp bs b
  constructor
  · intro hok hmem
    have hbs : bs = weeklyData
        (generateForecast env (some m) (min wp 12 * 7)) (min wp 12) := by
      have : ApiResult.ok (weeklyData
          (generateForecast env (some m) (min wp 12 * 7)) (min wp 12))
          = ApiResult.ok bs := hok
      exact (ApiResult.ok.inj this).symm
    rw [hbs] at hmem
    exact aggregateBuckets_mem_band hmem
  · intro hok hmem
    have hbs : bs = monthlyData
        (generateForecast env (some m) (min mp 6 * 30)) (min mp 6) := by
      have : ApiResult.ok (monthlyData
          (generateForecast env (some m) (min mp 6 * 30)) (min mp 6))
          = ApiResult.ok bs := hok
      exact (ApiResult.ok.inj this).symm
    rw [hbs] at hmem
    exact aggregateBuckets_mem_band hmem

/-- Witness for the amended C1: the concrete weekly bucket produced with
the statistical variant active has lower band 59.5 = round(70 * 0.85, 1). -/
theorem aggregation_band_fixed_widths_witness :
    (AggPeriod.mk 1 (some 0) (some 6) 70 70 10 (119/2) (161/2)).lower
      = round1 ((AggPeriod.mk 1 (some 0) (some 6) 70 70 10 (119/2)
          (161/2)).total * (85/100)) :=
  ((aggregation_band_fixed_widths env0 ModelName.sarima 1 1
    [⟨1, some 0, some 6, 70, 70, 10, 119/2, 161/2⟩]
    ⟨1, some 0, some 6, 70, 70, 10, 119/2, 161/2⟩).1
    weekly_env0_eval (by simp)).1

end Cafeteria

namespace Cafeteria

theorem mem_itemGroup {t : List DailyRow} {i : ℤ} {r : DailyRow}
    (h : r ∈ itemGroup t i) : r ∈ t ∧ r.item = i := by
  unfold itemGroup at h
  rw [List.mem_filter] at h
  exact ⟨h.1, by simpa using h.2⟩

/-- Claim C2: every value read by a lag, rolling or expanding statistic of
item i comes from a row of the daily table with the same item i: the lag
source row, every row of a rolling window and every row of an expanding
window of the item-i group lies in the table and carries item i, and every
defined lag feature of an engineered row equals the sales of a same-item
table row, so the statistics never cross item boundaries. -/
theorem lag_rolling_per_item :
    ∀ (recs : List SalesRec) (weather : List WeatherRec) (i : ℤ)
      (p lag w : ℕ),
      (∀ r, lagSourceRow (itemGroup (dailyTable recs) i) p lag = some r →
          r ∈ dailyTable recs ∧ r.item = i)
    ∧ (∀ r ∈ rollingWindow (itemGroup (dailyTable recs) i) p w,
          r ∈ dailyTable recs ∧ r.item = i)
    ∧ (∀ r ∈ expandingWindow (itemGroup (dailyTable recs) i) p,
          r ∈ dailyTable recs ∧ r.item = i)
    ∧ (∀ fr ∈ featureRows recs weather, ∀ v : ℚ,
          (fr.lag1 = some v ∨ fr.lag7 = some v ∨ fr.lag14 = some v ∨
           fr.lag28 = some v) →
          ∃ r, r ∈ dailyTable recs ∧ r.item = fr.item ∧ r.sales = v) := by
  intro recs weather i p lag w
  refine ⟨?_, ?_, ?_, ?_⟩
  · intro r hr
    unfold lagSourceRow at hr
    by_cases hc : lag ≤ p
    · rw [if_pos hc] at hr
      exact mem_itemGroup (List.getElem?_mem hr)
    · rw [if_neg hc] at hr
      simp at hr
  · intro r hr
    unfold rollingWindow at hr
    exact mem_itemGroup
      (List.mem_of_mem_take (List.mem_of_mem_drop hr))
  · intro r hr
    unfold expandingWindow at hr
    exact mem_itemGroup (List.mem_of_mem_take hr)
  · intro fr hfr v hv
    unfold featureRows at hfr
    rw [List.mem_map] at hfr
    obtain ⟨ir, _, rfl⟩ := hfr
    have hlag : ∃ lg : ℕ,
        lagAt (itemGroup (dailyTable recs) ir.2.item)
          ((List.take ir.1 (dailyTable recs)).countP
            fun x => x.item = ir.2.item) lg = some v := by
      rcases hv with h | h | h | h
      · exact ⟨1, h⟩
      · exact ⟨7, h⟩
      · exact ⟨14, h⟩
      · exact ⟨28, h⟩
    obtain ⟨lg, hlg⟩ := hlag
    unfold lagAt at hlg
    rw [Option.map_eq_some'] at hlg
    obtain ⟨r, hr, hsales⟩ := hlg
    have hrm : r ∈ itemGroup (dailyTable recs) ir.2.item := by
      unfold lagSourceRow at hr
      by_cases hc : lg ≤ (List.take ir.1 (dailyTable recs)).countP
          fun x => x.item = ir.2.item
      · rw [if_pos hc] at hr
        exact List.getElem?_mem hr
      · rw [if_neg hc] at hr
        simp at hr
    exact ⟨r, (mem_itemGroup hrm).1, (mem_itemGroup hrm).2, hsales⟩

/-- Concrete raw table used as the C2 witness: two sales records of item 1
on days 0 and 1. -/
def recsW : List SalesRec := [⟨0, 1, 1, 5⟩, ⟨1, 1, 1, 6⟩]

/-- Witness for C2: in the concrete table, the lag-1 source row at group
position 1 of item 1 is the day-0 row of item 1, which is in the table. -/
theorem lag_rolling_per_item_witness :
    (⟨0, 1, 5⟩ : DailyRow) ∈ dailyTable recsW
  ∧ (⟨0, 1, 5⟩ : DailyRow).item = 1 := by
  refine (lag_rolling_per_item recsW [] 1 1 1 7).1 ⟨0, 1, 5⟩ ?_
  norm_num [dailyTable, recsW, sortedKeys, insertKey, keyLt, groupSales,
    itemGroup, lagSourceRow]

/-- Claim C10: every row of the final training table has an item id
between 1 and 50; the category mapping is defined exactly on 1..50 and
undefined outside, and the final dropna removes every row whose category
is undefined, so out-of-range items are silently excluded. -/
theorem final_table_item_range :
    ∀ (recs : List SalesRec) (weather : List WeatherRec),
      ((engineerFeatures recs weather).all fun fr =>
          decide (1 ≤ fr.item) && decide (fr.item ≤ 50)) = true
    ∧ ∀ i : ℤ,
        ((1 ≤ i ∧ i ≤ 50) ∧ (itemCategoryMap i).isSome = true)
      ∨ ((¬ (1 ≤ i ∧ i ≤ 50)) ∧ itemCategoryMap i = none) := by
  intro recs weather
  constructor
  · rw [List.all_eq_true]
    intro fr hfr
    unfold engineerFeatures at hfr
    rw [List.mem_filter] at hfr
    obtain ⟨hmem, hcomp⟩ := hfr
    unfold featureRows at hmem
    rw [List.mem_map] at hmem
    obtain ⟨ir, _, rfl⟩ := hmem
    have hsome : (itemCategoryMap ir.2.item).isSome = true := by
      unfold rowComplete featureRowAt at hcomp
      simp only [Bool.and_eq_true] at hcomp
      exact hcomp.2
    have hitem : (featureRowAt (dailyTable recs) weather ir.1 ir.2).item
        = ir.2.item := rfl
    unfold itemCategoryMap at hsome
    by_cases h : 1 ≤ ir.2.item ∧ ir.2.item ≤ 50
    · rw [hitem]
      simp only [Bool.and_eq_true, decide_eq_true_eq]
      exact h
    · rw [if_neg h] at hsome
      simp at hsome
  · intro i
    by_cases h : 1 ≤ i ∧ i ≤ 50
    · left
      refine ⟨h, ?_⟩
      unfold itemCategoryMap
      rw [if_pos h]
      have hlt : (i - 1).toNat % 5 < categoriesList.length := by
        unfold categoriesList
        simp only [List.length_cons, List.length_nil]
        omega
      rw [List.getElem?_eq_getElem hlt]
      rfl
    · right
      refine ⟨h, ?_⟩
      unfold itemCategoryMap
      rw [if_neg h]

end Cafeteria

namespace Cafeteria

/-- 29 consecutive days of sales for item 1: the shortest history whose
final day survives the lag-28 warm-up. -/
def recs29 : List SalesRec := (List.range 29).map fun d => ⟨d, 1, 1, 10⟩

/-- Matching 29 days of weather. -/
def wtr29 : List WeatherRec := (List.range 29).map fun d => ⟨d, 30, 20, 25, 0, 0⟩

/-- The final training table is not always empty: with 29 days of history
for item 1 the dropna keeps at least one row, so the range invariant of
engineerFeatures is not vacuous. -/
theorem engineerFeatures_nonempty_demo :
    (engineerFeatures recs29 wtr29).isEmpty = false := by decide

end Cafeteria

namespace Cafeteria

/-- 29 consecutive days of sales for the out-of-range item 60. -/
def recs60 : List SalesRec := (List.range 29).map fun d => ⟨d, 1, 60, 10⟩

/-- An item outside 1..50 is silently excluded: the same 29-day history
for item 60 leaves the final training table empty, because the category
mapping of item 60 is undefined and dropna removes every one of its
rows. -/
theorem outOfRange_item_dropped_demo :
    (engineerFeatures recs60 wtr29).isEmpty = true := by decide

end Cafeteria
